import Mathlib

/-!
Verification of the PPG heart-rate estimation pipeline
(`src/utils/heartRateDetection.ts` and the measurement session logic of
`src/components/HeartRateMonitor.tsx`).

JavaScript numbers are modelled as elements of a linear ordered field
(instantiated at `ℚ` for executable evaluations and at `ℝ` where the source
uses `Math.sqrt` / `Math.tan`).  A JavaScript `NaN` produced by an unguarded
`0/0` is modelled by `Option`, with `none` standing for `NaN`.
-/

namespace PulseDetector

/-- Sum of pairwise products of two sample lists, truncated at the shorter
one.  `dot c (c.drop lag)` is exactly the source's
`for i < n - lag, sum += centered[i] * centered[i+lag]`. -/
def dot {α : Type} [LinearOrderedField α] (a b : List α) : α :=
  (List.zipWith (· * ·) a b).sum

/-- The mean-removed window: `signal.map (x => x - mean)` with
`mean = signal.reduce(+) / n`. -/
def centeredOf {α : Type} [LinearOrderedField α] (signal : List α) : List α :=
  signal.map (fun x => x - signal.sum / (signal.length : α))

/-- The (unnormalized) variance `centered.reduce (sum, x => sum + x*x)`. -/
def varianceOf {α : Type} [LinearOrderedField α] (signal : List α) : α :=
  dot (centeredOf signal) (centeredOf signal)

/-- Normalized autocorrelation of the window at a given lag, as computed in
the lag loop of `estimateHeartRateAutocorrelation`. -/
def corrAt {α : Type} [LinearOrderedField α] (signal : List α) (lag : ℕ) : α :=
  dot (centeredOf signal) ((centeredOf signal).drop lag) / varianceOf signal

/-- Lower lag bound `Math.floor(fs * (60 / 220))` (220 BPM). -/
def minLagOf {α : Type} [LinearOrderedField α] [FloorRing α] (fs : α) : ℕ :=
  (⌊fs * (60 / 220)⌋).toNat

/-- Upper lag bound `Math.floor(fs * (60 / 40))` (40 BPM). -/
def maxLagOf {α : Type} [LinearOrderedField α] [FloorRing α] (fs : α) : ℕ :=
  (⌊fs * (60 / 40)⌋).toNat

/-- The scanned lag range `minLag, minLag+1, ..., maxLag`. -/
def lagRange {α : Type} [LinearOrderedField α] [FloorRing α] (fs : α) : List ℕ :=
  List.range' (minLagOf fs) (maxLagOf fs + 1 - minLagOf fs)

/-- The best-lag search loop: starting from `maxCorr = -1`, `bestLag = 0`,
replace the pair whenever the current lag's correlation strictly exceeds the
running maximum. -/
def searchBest {α : Type} [LinearOrderedField α] [FloorRing α]
    (signal : List α) (fs : α) : α × ℕ :=
  (lagRange fs).foldl
    (fun acc lag => if acc.1 < corrAt signal lag then (corrAt signal lag, lag) else acc)
    (-1, 0)

/-- Parabolic sub-sample peak refinement (`refinePeak` in the source;
defined there but never invoked by the estimator). -/
def refinePeak {α : Type} [LinearOrderedField α] (correlations : List α)
    (peakIndex : ℕ) : α :=
  if peakIndex = 0 ∨ correlations.length - 1 ≤ peakIndex then (peakIndex : α)
  else
    let y1 := correlations.getD (peakIndex - 1) 0
    let y2 := correlations.getD peakIndex 0
    let y3 := correlations.getD (peakIndex + 1) 0
    let denominator := y1 - 2 * y2 + y3
    if |denominator| < 1 / 10 ^ 10 then (peakIndex : α)
    else (peakIndex : α) + 0.5 * (y1 - y3) / denominator

/-- The rounded half of the best lag, `Math.round(bestLag / 2)`: for a
natural-number lag this is `(bestLag + 1) / 2` in integer division. -/
def halfLagOf {α : Type} [LinearOrderedField α] [FloorRing α]
    (signal : List α) (fs : α) : ℕ :=
  ((searchBest signal fs).2 + 1) / 2

/-- The lag finally converted to BPM: the half-lag when it lies in the
scanned range and its correlation strictly exceeds 60% of the maximum
(`corrHalf > maxCorr * 0.6`), otherwise the best lag. -/
def chosenLag {α : Type} [LinearOrderedField α] [FloorRing α]
    (signal : List α) (fs : α) : ℕ :=
  if minLagOf fs ≤ halfLagOf signal fs ∧
      (searchBest signal fs).1 * 0.6 < corrAt signal (halfLagOf signal fs) then
    halfLagOf signal fs
  else (searchBest signal fs).2

/-- The autocorrelation heart-rate estimator
(`estimateHeartRateAutocorrelation`): variance guard, best-lag search over
the scanned range, confidence gate `maxCorr < 0.2 || bestLag === 0`,
harmonic half-lag check, and conversion `60 / (bestLag / fs)`.
The parabolic refinement step is absent from the source's control flow. -/
def estimateHeartRateAutocorrelation {α : Type} [LinearOrderedField α]
    [FloorRing α] (signal : List α) (fs : α) : α :=
  if varianceOf signal < 1 / 10 ^ 10 then 0
  else if (searchBest signal fs).1 < 0.2 ∨ (searchBest signal fs).2 = 0 then 0
  else 60 / ((chosenLag signal fs : α) / fs)

/-- Ordinary median (`median` in the source): sort ascending, take the middle
element for odd length, the average of the two middle elements for even
length, `0` for the empty list. -/
def median {α : Type} [LinearOrderedField α] (values : List α) : α :=
  if values = [] then 0
  else if (values.insertionSort (· ≤ ·)).length % 2 = 1 then
    (values.insertionSort (· ≤ ·)).getD ((values.insertionSort (· ≤ ·)).length / 2) 0
  else
    ((values.insertionSort (· ≤ ·)).getD ((values.insertionSort (· ≤ ·)).length / 2 - 1) 0 +
      (values.insertionSort (· ≤ ·)).getD ((values.insertionSort (· ≤ ·)).length / 2) 0) / 2

/-- The expanded multiset built by `weightedMedian`'s nested loops: the
`i`-th of `n` entries is replicated `i + 1` times, in order. -/
def weightedExpansion {α : Type} (values : List α) : List α :=
  values.enum.flatMap fun p => List.replicate (p.1 + 1) p.2

/-- Position-weighted median (`weightedMedian` in the source): `0` on the
empty list, otherwise the ordinary median of the weighted expansion. -/
def weightedMedian {α : Type} [LinearOrderedField α] (values : List α) : α :=
  if values = [] then 0 else median (weightedExpansion values)

/-- Maximum of a sample window.  The source seeds a fold with `-Infinity`;
for the nonempty windows on which this is ever used the result is the fold
of `max` over the list, which is what we define (the `[]` case is never
reached behind the `n < 10` guard). -/
def maxOf {α : Type} [LinearOrderedField α] : List α → α
  | [] => 0
  | x :: xs => xs.foldl max x

/-- Minimum of a sample window, analogous to `maxOf`. -/
def minOf {α : Type} [LinearOrderedField α] : List α → α
  | [] => 0
  | x :: xs => xs.foldl min x

/-- A brightness window with an exact period of 8 samples (three pulses,
24 samples): the best lag is 8, the shortest scanned lag. -/
def sigPeriod8 : List ℚ :=
  [1,0,0,0,0,0,0,0,1,0,0,0,0,0,0,0,1,0,0,0,0,0,0,0]

/-- A window of 20 samples whose half-lag (8) correlation is exactly 60% of
the best lag (16) correlation. -/
def sigEqualHalf : List ℚ :=
  [1, -23/20, -23/20, 0, 0, 0, 0, 0, 3/10, 0, 0, 0, 0, 0, 0, 0, 1, 0, 0, 0]

/-- A window of 20 samples whose half-lag (8) correlation is 70% of the
best lag (16) correlation, so the harmonic correction fires. -/
def sigStrongHalf : List ℚ :=
  [1, -47/40, -47/40, 0, 0, 0, 0, 0, 7/20, 0, 0, 0, 0, 0, 0, 0, 1, 0, 0, 0]

/-- A brightness window with an exact period of 10 samples (three pulses,
30 samples): the best lag 10 is interior to the scanned range 8–45. -/
def sigPeriod10 : List ℚ :=
  [1,0,0,0,0,0,0,0,0,0,1,0,0,0,0,0,0,0,0,0,1,0,0,0,0,0,0,0,0,0]

/-- The recurring `data.reduce((a, b) => a + b, 0) / n`. -/
def meanOf {α : Type} [LinearOrderedField α] (data : List α) : α :=
  data.sum / (data.length : α)

/-- Second central moment accumulator `m2` (= `sumSquares`): the sum of
`diff * diff` over the window. -/
def m2Of {α : Type} [LinearOrderedField α] (data : List α) : α :=
  (data.map fun x => (x - meanOf data) * (x - meanOf data)).sum

/-- Third central moment accumulator `m3`: the sum of
`diff * diff * diff` over the window. -/
def m3Of {α : Type} [LinearOrderedField α] (data : List α) : α :=
  (data.map fun x => (x - meanOf data) * (x - meanOf data) * (x - meanOf data)).sum

/-- The standard deviation `Math.sqrt(m2 / n)` used by `assessSignalQuality`
and `calculateSkewness`. -/
noncomputable def stdDevOf (data : List ℝ) : ℝ :=
  Real.sqrt (m2Of data / (data.length : ℝ))

/-- The AC/DC ratio of `assessSignalQuality`:
`dcComponent > 0 ? acComponent / dcComponent : 0` with
`acComponent = Math.sqrt(sumSquares / n)` and `dcComponent = Math.abs(mean)`. -/
noncomputable def snrOf (data : List ℝ) : ℝ :=
  if 0 < |meanOf data| then stdDevOf data / |meanOf data| else 0

/-- The guarded skewness of `assessSignalQuality`:
`stdDev > 0 ? m3 / n / (stdDev*stdDev*stdDev) : 0`. -/
noncomputable def skewnessOf (data : List ℝ) : ℝ :=
  if 0 < stdDevOf data then
    m3Of data / (data.length : ℝ) / (stdDevOf data * stdDevOf data * stdDevOf data)
  else 0

/-- Peak-to-peak span `maxVal - minVal`. -/
def peakToPeakOf {α : Type} [LinearOrderedField α] (data : List α) : α :=
  maxOf data - minOf data

/-- The source's `assessSignalQuality`: 0 for windows shorter than 10,
otherwise 1 when at least one of the three heuristic scores is 1
(`totalScore >= 1`), else 0. -/
noncomputable def assessSignalQuality (data : List ℝ) : ℝ :=
  if data.length < 10 then 0
  else if 1 ≤ (if 0.001 < snrOf data ∧ snrOf data < 1 then (1:ℝ) else 0) +
      (if 0.2 < |skewnessOf data| then (1:ℝ) else 0) +
      (if 1 < peakToPeakOf data then (1:ℝ) else 0) then 1
  else 0

/-- The source's `calculateSkewness`, which unlike `assessSignalQuality`
does not guard its final division: it computes
`m3 / n / (stdDev * stdDev * stdDev)` unconditionally.  When `stdDev = 0`
(a constant window) the numerator `m3 / n` is also 0 and JavaScript's
`0 / 0` yields `NaN`, modelled here as `none`; otherwise the finite result
is returned in `some`. -/
noncomputable def calculateSkewness (data : List ℝ) : Option ℝ :=
  if data.length < 3 then some 0
  else if stdDevOf data = 0 then none
  else some (m3Of data / (data.length : ℝ) /
    (stdDevOf data * stdDevOf data * stdDevOf data))

/-- Coefficients of the second-order band-pass section: numerator
`b = [b0, b1, b2]` and denominator `a1, a2` (with `a0` normalized to 1). -/
structure BWCoeffs where
  b0 : ℝ
  b1 : ℝ
  b2 : ℝ
  a1 : ℝ
  a2 : ℝ

/-- The `ButterworthFilter` history: the last raw inputs `x[0..2]` and
filtered outputs `y[0..2]`. -/
structure BWState where
  x0 : ℝ
  x1 : ℝ
  x2 : ℝ
  y0 : ℝ
  y1 : ℝ
  y2 : ℝ

/-- `calculateCoefficients` as a function of the prewarped band edges
`w_low` and `w_high` (`w0 * w0` is written with the source's
`Math.sqrt(w_low * w_high)`), bilinear transform of
`H(s) = s·bw / (s² + s·bw + w0²)` with `norm = 1/(1 + bw + w0²)`. -/
noncomputable def bpfCoeffs (wl wh : ℝ) : BWCoeffs where
  b0 := (wh - wl) * (1 / (1 + (wh - wl) + Real.sqrt (wl * wh) * Real.sqrt (wl * wh)))
  b1 := 0
  b2 := -((wh - wl) * (1 / (1 + (wh - wl) + Real.sqrt (wl * wh) * Real.sqrt (wl * wh))))
  a1 := 2 * (Real.sqrt (wl * wh) * Real.sqrt (wl * wh) - 1) *
    (1 / (1 + (wh - wl) + Real.sqrt (wl * wh) * Real.sqrt (wl * wh)))
  a2 := (1 - (wh - wl) + Real.sqrt (wl * wh) * Real.sqrt (wl * wh)) *
    (1 / (1 + (wh - wl) + Real.sqrt (wl * wh) * Real.sqrt (wl * wh)))

/-- The `ButterworthFilter(fs, lowCutoff, highCutoff)` constructor: band
edges prewarped by `Math.tan(π f / fs)`. -/
noncomputable def butterworthCoeffs (fs lowCutoff highCutoff : ℝ) : BWCoeffs :=
  bpfCoeffs (Real.tan (Real.pi * lowCutoff / fs)) (Real.tan (Real.pi * highCutoff / fs))

/-- `reset()` / fresh construction: all history zero. -/
def bwReset : BWState :=
  ⟨0, 0, 0, 0, 0, 0⟩

/-- One `process(input)` call: shift the raw and filtered histories and
evaluate the difference equation
`y[n] = b0·x[n] + b1·x[n-1] + b2·x[n-2] - a1·y[n-1] - a2·y[n-2]`. -/
def bwStep (c : BWCoeffs) (s : BWState) (input : ℝ) : BWState where
  x0 := input
  x1 := s.x0
  x2 := s.x1
  y0 := c.b0 * input + c.b1 * s.x0 + c.b2 * s.x1 - c.a1 * s.y0 - c.a2 * s.y1
  y1 := s.y0
  y2 := s.y1

/-- The filter state after feeding the first `n` samples of the stream `x`
into a freshly reset filter. -/
def bwRun (c : BWCoeffs) (x : ℕ → ℝ) : ℕ → BWState
  | 0 => bwReset
  | n + 1 => bwStep c (bwRun c x n) (x n)

/-- The detection phase of `HeartRateMonitor` (`detectionPhaseRef`):
`waiting` for a finger, or actively `measuring`. -/
inductive Phase where
  | waiting
  | measuring
deriving DecidableEq

/-- The mutable session state of the `HeartRateMonitor` component:
detection phase, finger flag, sample window (`dataBufferRef`), accepted
estimates (`validReadingsRef`), progress fraction, displayed BPM,
throttling timestamp (`lastProcessTimeRef`), and the filter history.
(The advanced-metrics snapshot is display-only and feeds nothing back into
the measurement state, so it is not carried here.) -/
structure MonitorState where
  phase : Phase
  fingerDetected : Bool
  dataBuffer : List ℝ
  validReadings : List ℝ
  progress : ℝ
  currentBPM : Option ℤ
  lastProcessTime : ℤ
  filter : BWState

/-- The component's filter: `new ButterworthFilter(SAMPLING_RATE)` with the
default 0.5–5 Hz passband. -/
noncomputable def monitorCoeffs : BWCoeffs :=
  butterworthCoeffs 30 0.5 5

/-- The state of a freshly mounted monitor (also the state produced by
`startMonitoring`). -/
def initialMonitorState : MonitorState :=
  ⟨Phase.waiting, false, [], [], 0, none, 0, bwReset⟩

/-- The sliding-window push of `processFrameData` lines 204–211: append the
new reading, then `shift()` the oldest one out if the capacity
`WINDOW_SIZE = 180` is exceeded. -/
def pushWindow (buf : List ℝ) (v : ℝ) : List ℝ :=
  if 180 < (buf ++ [v]).length then (buf ++ [v]).tail else buf ++ [v]

/-- Step 3–6 of the rate-limited evaluation: append the estimate when it is
inside the 30–200 plausibility band, smooth the last 7 readings with the
weighted median, display the rounded result, and finalize (back to
`waiting`) once 12 readings were accepted. -/
noncomputable def processAcceptReading (st : MonitorState) (bpm : ℝ) : MonitorState :=
  if 12 ≤ (st.validReadings ++ [bpm]).length then
    { st with
      validReadings := st.validReadings ++ [bpm]
      currentBPM := some (round (weightedMedian
        ((st.validReadings ++ [bpm]).drop ((st.validReadings ++ [bpm]).length - 7))))
      phase := Phase.waiting
      fingerDetected := false
      progress := 0 }
  else
    { st with
      validReadings := st.validReadings ++ [bpm]
      currentBPM := some (round (weightedMedian
        ((st.validReadings ++ [bpm]).drop ((st.validReadings ++ [bpm]).length - 7)))) }

/-- The quality gate and plausibility gate of the rate-limited evaluation:
reject the window (state unchanged) unless `assessSignalQuality` clears
`MIN_QUALITY_SCORE = 0.5` and the estimate lies in 30–200 BPM. -/
noncomputable def processEvaluate (st : MonitorState) : MonitorState :=
  if 1 / 2 ≤ assessSignalQuality st.dataBuffer then
    if 30 ≤ estimateHeartRateAutocorrelation st.dataBuffer (30 : ℝ) ∧
        estimateHeartRateAutocorrelation st.dataBuffer (30 : ℝ) ≤ 200 then
      processAcceptReading st (estimateHeartRateAutocorrelation st.dataBuffer (30 : ℝ))
    else st
  else st

/-- The accepted-sample path of the measuring phase: push the filtered
value into the sliding window, update the progress fraction, and — when the
window is full and at least 500 ms passed since the last evaluation — stamp
`lastProcessTime` and run the evaluation. -/
noncomputable def processAccepted (st : MonitorState) (avgRed : ℝ) (now : ℤ) : MonitorState :=
  if (pushWindow st.dataBuffer (bwStep monitorCoeffs st.filter avgRed).y0).length = 180 ∧
      500 < now - st.lastProcessTime then
    processEvaluate
      { st with
        filter := bwStep monitorCoeffs st.filter avgRed
        dataBuffer := pushWindow st.dataBuffer (bwStep monitorCoeffs st.filter avgRed).y0
        progress := min
          (((pushWindow st.dataBuffer (bwStep monitorCoeffs st.filter avgRed).y0).length : ℝ) / 180) 1
        lastProcessTime := now }
  else
    { st with
      filter := bwStep monitorCoeffs st.filter avgRed
      dataBuffer := pushWindow st.dataBuffer (bwStep monitorCoeffs st.filter avgRed).y0
      progress := min
        (((pushWindow st.dataBuffer (bwStep monitorCoeffs st.filter avgRed).y0).length : ℝ) / 180) 1 }

/-- The measuring phase after the lost-contact check: the filter processes
the sample first; if the filtered value jumps by more than 10 from the last
retained one (and more than 5 samples are buffered), the last 5 readings
are discarded (`slice(0, -5)`) and the frame is skipped, otherwise the
sample is accepted. -/
noncomputable def processMeasuring (st : MonitorState) (avgRed : ℝ) (now : ℤ) : MonitorState :=
  if 5 < st.dataBuffer.length ∧
      10 < |(bwStep monitorCoeffs st.filter avgRed).y0 - st.dataBuffer.getLastD 0| then
    { st with
      filter := bwStep monitorCoeffs st.filter avgRed
      dataBuffer := st.dataBuffer.take (st.dataBuffer.length - 5) }
  else processAccepted st avgRed now

/-- `processFrameData(avgRed)` of `HeartRateMonitor`: in `waiting`, a
sample above `FINGER_DETECTED_THRESHOLD = 80` starts a measurement with
freshly cleared window, estimate history and filter; in `measuring`, a
sample below `FINGER_LOST_THRESHOLD = 40` immediately returns to `waiting`
(progress reset), otherwise the sample is filtered, motion-checked,
windowed, and the rate-limited evaluation may run. -/
noncomputable def processFrameData (st : MonitorState) (avgRed : ℝ) (now : ℤ) : MonitorState :=
  match st.phase with
  | Phase.waiting =>
    if 80 < avgRed then
      { st with
        fingerDetected := true
        phase := Phase.measuring
        dataBuffer := []
        validReadings := []
        filter := bwReset
        progress := 0 }
    else { st with fingerDetected := false }
  | Phase.measuring =>
    if avgRed < 40 then
      { st with fingerDetected := false, phase := Phase.waiting, progress := 0 }
    else processMeasuring st avgRed now

/-- A reachable mid-measurement state used to witness the contact-loss
behavior: one buffered sample and one accepted reading. -/
noncomputable def stMeasuring : MonitorState :=
  ⟨Phase.measuring, true, [1], [70], 1 / 180, none, 0, bwReset⟩

/-- The accumulator of the best-lag fold either keeps its initial lag or
ends on one of the scanned lags. -/
theorem foldl_best_snd_mem {α : Type} [LinearOrderedField α]
    (l : List ℕ) (g : ℕ → α) (acc : α × ℕ) :
    ((l.foldl (fun acc lag => if acc.1 < g lag then (g lag, lag) else acc) acc).2 = acc.2) ∨
      (l.foldl (fun acc lag => if acc.1 < g lag then (g lag, lag) else acc) acc).2 ∈ l := by
  induction l generalizing acc with
  | nil => exact Or.inl rfl
  | cons a t ih =>
    rw [List.foldl_cons]
    by_cases ha : acc.1 < g a
    · rw [if_pos ha]
      rcases ih (g a, a) with h | h
      · exact Or.inr (by rw [h]; exact List.mem_cons_self a t)
      · exact Or.inr (List.mem_cons_of_mem a h)
    · rw [if_neg ha]
      rcases ih acc with h | h
      · exact Or.inl h
      · exact Or.inr (List.mem_cons_of_mem a h)

/-- The best lag returned by the search is `0` (the initial value) or a
member of the scanned lag range. -/
theorem searchBest_snd_mem {α : Type} [LinearOrderedField α] [FloorRing α]
    (signal : List α) (fs : α) :
    (searchBest signal fs).2 = 0 ∨ (searchBest signal fs).2 ∈ lagRange fs :=
  foldl_best_snd_mem (lagRange fs) (corrAt signal) (-1, 0)

/-- At the reference sampling rate the lower scanned lag bound is 8. -/
theorem minLag30 : minLagOf (30 : ℚ) = 8 := by
  norm_num [minLagOf]; rfl

/-- At the reference sampling rate the upper scanned lag bound is 45. -/
theorem maxLag30 : maxLagOf (30 : ℚ) = 45 := by
  norm_num [maxLagOf]; rfl

/-- At the reference sampling rate the scanned lags are 8 through 45. -/
theorem lagRange30 : lagRange (30 : ℚ) = List.range' 8 38 := by
  norm_num [lagRange, minLag30, maxLag30]

/-- Whenever the estimator reaches the BPM-conversion step, the converted
lag lies between 8 and 45. -/
theorem chosenLag_bounds (signal : List ℚ)
    (h : ¬((searchBest signal (30:ℚ)).1 < 0.2 ∨ (searchBest signal (30:ℚ)).2 = 0)) :
    8 ≤ chosenLag signal (30:ℚ) ∧ chosenLag signal (30:ℚ) ≤ 45 := by
  push_neg at h
  rcases searchBest_snd_mem signal (30:ℚ) with h0 | hmem
  · exact absurd h0 h.2
  rw [lagRange30, List.mem_range'_1] at hmem
  have hL8 : 8 ≤ (searchBest signal (30:ℚ)).2 := hmem.1
  have hL45 : (searchBest signal (30:ℚ)).2 ≤ 45 := by omega
  unfold chosenLag
  by_cases hc : minLagOf (30:ℚ) ≤ halfLagOf signal (30:ℚ) ∧
      (searchBest signal (30:ℚ)).1 * 0.6 < corrAt signal (halfLagOf signal (30:ℚ))
  · rw [if_pos hc]
    refine ⟨minLag30 ▸ hc.1, ?_⟩
    have : halfLagOf signal (30:ℚ) ≤ 23 := by
      unfold halfLagOf; omega
    omega
  · rw [if_neg hc]
    exact ⟨hL8, hL45⟩

/-- Lags between 8 and 45 convert to BPM values between 40 and 225. -/
theorem bpm_of_lag_bounds {L : ℕ} (h8 : 8 ≤ L) (h45 : L ≤ 45) :
    40 ≤ (60:ℚ) / ((L:ℚ) / 30) ∧ (60:ℚ) / ((L:ℚ) / 30) ≤ 225 := by
  have hL0 : (0:ℚ) < (L:ℚ) := by exact_mod_cast Nat.lt_of_lt_of_le (by norm_num) h8
  have h8q : (8:ℚ) ≤ (L:ℚ) := by exact_mod_cast h8
  have h45q : (L:ℚ) ≤ 45 := by exact_mod_cast h45
  rw [div_div_eq_mul_div]
  constructor
  · rw [le_div_iff₀ hL0]; linarith
  · rw [div_le_iff₀ hL0]; linarith

/-- The best-lag search on `sigPeriod8` finds lag 8 with correlation 2/3. -/
theorem searchBest_sigPeriod8 : searchBest sigPeriod8 (30:ℚ) = (2/3, 8) := by
  norm_num [searchBest, lagRange30, corrAt, dot, centeredOf, varianceOf,
    sigPeriod8, List.range']

/-- The variance guard does not fire on `sigPeriod8`. -/
theorem variance_sigPeriod8 : ¬ varianceOf sigPeriod8 < 1 / 10 ^ 10 := by
  norm_num [varianceOf, dot, centeredOf, sigPeriod8]

/-- C3 counterexample: on the period-8 window the estimator returns
225 BPM, which is neither the sentinel 0 nor inside the claimed 30–220
sanity band. -/
theorem estimator_band_counterexample :
    estimateHeartRateAutocorrelation sigPeriod8 (30:ℚ) = 225 ∧
    ¬(estimateHeartRateAutocorrelation sigPeriod8 (30:ℚ) = 0 ∨
      (30 ≤ estimateHeartRateAutocorrelation sigPeriod8 (30:ℚ) ∧
       estimateHeartRateAutocorrelation sigPeriod8 (30:ℚ) ≤ 220)) := by
  have hval : estimateHeartRateAutocorrelation sigPeriod8 (30:ℚ) = 225 := by
    unfold estimateHeartRateAutocorrelation chosenLag halfLagOf
    rw [searchBest_sigPeriod8, if_neg variance_sigPeriod8, minLag30]
    norm_num
  refine ⟨hval, ?_⟩
  rw [hval]; norm_num

/-- C3 (amended): at the reference rate fs = 30 the estimator's return
value is either the sentinel 0 or a BPM in the band 40–225 implied by the
scanned lag range 8–45. -/
theorem estimator_returns_zero_or_band (signal : List ℚ) :
    estimateHeartRateAutocorrelation signal 30 = 0 ∨
      (40 ≤ estimateHeartRateAutocorrelation signal 30 ∧
       estimateHeartRateAutocorrelation signal 30 ≤ 225) := by
  unfold estimateHeartRateAutocorrelation
  by_cases hv : varianceOf signal < 1 / 10 ^ 10
  · rw [if_pos hv]; exact Or.inl rfl
  rw [if_neg hv]
  by_cases hg : (searchBest signal (30:ℚ)).1 < 0.2 ∨ (searchBest signal (30:ℚ)).2 = 0
  · rw [if_pos hg]; exact Or.inl rfl
  rw [if_neg hg]
  obtain ⟨h8, h45⟩ := chosenLag_bounds signal hg
  exact Or.inr (bpm_of_lag_bounds h8 h45)

/-- C5 (amended): whenever the confidence gate passes, the rounded half of
the best lag is still inside the scanned range, and the half-lag correlation
is strictly greater than 60% of the best correlation, the returned BPM is
computed from the half-lag. -/
theorem harmonic_half_lag_preferred (signal : List ℚ)
    (hvar : ¬ varianceOf signal < 1 / 10 ^ 10)
    (hconf : ¬((searchBest signal (30:ℚ)).1 < 0.2 ∨ (searchBest signal (30:ℚ)).2 = 0))
    (hrange : minLagOf (30:ℚ) ≤ halfLagOf signal (30:ℚ))
    (hstrong : (searchBest signal (30:ℚ)).1 * 0.6 <
      corrAt signal (halfLagOf signal (30:ℚ))) :
    estimateHeartRateAutocorrelation signal 30 =
      60 / ((halfLagOf signal (30:ℚ) : ℚ) / 30) := by
  unfold estimateHeartRateAutocorrelation chosenLag
  rw [if_neg hvar, if_neg hconf, if_pos ⟨hrange, hstrong⟩]

/-- The best-lag search on `sigEqualHalf` finds lag 16. -/
theorem searchBest_sigEqualHalf :
    searchBest sigEqualHalf (30:ℚ) = (200/947, 16) := by
  norm_num [searchBest, lagRange30, corrAt, dot, centeredOf, varianceOf,
    sigEqualHalf, List.range']

/-- The variance guard does not fire on `sigEqualHalf`. -/
theorem variance_sigEqualHalf : ¬ varianceOf sigEqualHalf < 1 / 10 ^ 10 := by
  norm_num [varianceOf, dot, centeredOf, sigEqualHalf]

/-- The half lag of `sigEqualHalf` is 8. -/
theorem halfLag_sigEqualHalf : halfLagOf sigEqualHalf (30:ℚ) = 8 := by
  unfold halfLagOf
  rw [searchBest_sigEqualHalf]
  rfl

/-- The half-lag correlation of `sigEqualHalf` is exactly 60% of the best. -/
theorem corrAt_sigEqualHalf : corrAt sigEqualHalf 8 = 120/947 := by
  norm_num [corrAt, dot, centeredOf, varianceOf, sigEqualHalf]

/-- C5 counterexample: on `sigEqualHalf` the half-lag correlation is at
least (indeed exactly) 60% as strong as the best lag's, the confidence gate
passes, and the half lag is in range — yet the estimator keeps the best lag
16 and returns 112.5 BPM instead of the half-lag's 225 BPM, because the
source comparison is strict. -/
theorem harmonic_at_least_counterexample :
    ¬ (searchBest sigEqualHalf (30:ℚ)).1 < 0.2 ∧
    (searchBest sigEqualHalf (30:ℚ)).2 = 16 ∧
    minLagOf (30:ℚ) ≤ halfLagOf sigEqualHalf (30:ℚ) ∧
    (searchBest sigEqualHalf (30:ℚ)).1 * 0.6 ≤
      corrAt sigEqualHalf (halfLagOf sigEqualHalf (30:ℚ)) ∧
    estimateHeartRateAutocorrelation sigEqualHalf (30:ℚ) =
      60 / (((searchBest sigEqualHalf (30:ℚ)).2 : ℚ) / 30) ∧
    estimateHeartRateAutocorrelation sigEqualHalf (30:ℚ) ≠
      60 / ((halfLagOf sigEqualHalf (30:ℚ) : ℚ) / 30) := by
  have hval : estimateHeartRateAutocorrelation sigEqualHalf (30:ℚ) = 225/2 := by
    unfold estimateHeartRateAutocorrelation chosenLag
    rw [if_neg variance_sigEqualHalf, halfLag_sigEqualHalf,
      searchBest_sigEqualHalf, corrAt_sigEqualHalf, minLag30]
    norm_num
  refine ⟨?_, ?_, ?_, ?_, ?_, ?_⟩
  · rw [searchBest_sigEqualHalf]; norm_num
  · rw [searchBest_sigEqualHalf]
  · rw [halfLag_sigEqualHalf, minLag30]
  · rw [searchBest_sigEqualHalf, halfLag_sigEqualHalf, corrAt_sigEqualHalf]
    norm_num
  · rw [hval, searchBest_sigEqualHalf]; norm_num
  · rw [hval, halfLag_sigEqualHalf]; norm_num

/-- The best-lag search on `sigStrongHalf` finds lag 16. -/
theorem searchBest_sigStrongHalf :
    searchBest sigStrongHalf (30:ℚ) = (800/3907, 16) := by
  norm_num [searchBest, lagRange30, corrAt, dot, centeredOf, varianceOf,
    sigStrongHalf, List.range']

/-- The variance guard does not fire on `sigStrongHalf`. -/
theorem variance_sigStrongHalf : ¬ varianceOf sigStrongHalf < 1 / 10 ^ 10 := by
  norm_num [varianceOf, dot, centeredOf, sigStrongHalf]

/-- The half lag of `sigStrongHalf` is 8. -/
theorem halfLag_sigStrongHalf : halfLagOf sigStrongHalf (30:ℚ) = 8 := by
  unfold halfLagOf
  rw [searchBest_sigStrongHalf]
  rfl

/-- The half-lag correlation of `sigStrongHalf` is 70% of the best. -/
theorem corrAt_sigStrongHalf : corrAt sigStrongHalf 8 = 560/3907 := by
  norm_num [corrAt, dot, centeredOf, varianceOf, sigStrongHalf]

/-- Witness for the amended harmonic-correction theorem on a concrete
window where the half lag is preferred and 225 BPM is returned. -/
theorem harmonic_half_lag_preferred_witness :
    (¬ varianceOf sigStrongHalf < 1 / 10 ^ 10) ∧
    (¬((searchBest sigStrongHalf (30:ℚ)).1 < 0.2 ∨
       (searchBest sigStrongHalf (30:ℚ)).2 = 0)) ∧
    minLagOf (30:ℚ) ≤ halfLagOf sigStrongHalf (30:ℚ) ∧
    (searchBest sigStrongHalf (30:ℚ)).1 * 0.6 <
      corrAt sigStrongHalf (halfLagOf sigStrongHalf (30:ℚ)) ∧
    estimateHeartRateAutocorrelation sigStrongHalf 30 =
      60 / ((halfLagOf sigStrongHalf (30:ℚ) : ℚ) / 30) := by
  have h1 : ¬ varianceOf sigStrongHalf < 1 / 10 ^ 10 := variance_sigStrongHalf
  have h2 : ¬((searchBest sigStrongHalf (30:ℚ)).1 < 0.2 ∨
      (searchBest sigStrongHalf (30:ℚ)).2 = 0) := by
    rw [searchBest_sigStrongHalf]; norm_num
  have h3 : minLagOf (30:ℚ) ≤ halfLagOf sigStrongHalf (30:ℚ) := by
    rw [halfLag_sigStrongHalf, minLag30]
  have h4 : (searchBest sigStrongHalf (30:ℚ)).1 * 0.6 <
      corrAt sigStrongHalf (halfLagOf sigStrongHalf (30:ℚ)) := by
    rw [searchBest_sigStrongHalf, halfLag_sigStrongHalf, corrAt_sigStrongHalf]
    norm_num
  exact ⟨h1, h2, h3, h4, harmonic_half_lag_preferred sigStrongHalf h1 h2 h3 h4⟩

/-- The best-lag search on `sigPeriod10` finds lag 10 with correlation 2/3. -/
theorem searchBest_sigPeriod10 : searchBest sigPeriod10 (30:ℚ) = (2/3, 10) := by
  norm_num [searchBest, lagRange30, corrAt, dot, centeredOf, varianceOf,
    sigPeriod10, List.range']

/-- The variance guard does not fire on `sigPeriod10`. -/
theorem variance_sigPeriod10 : ¬ varianceOf sigPeriod10 < 1 / 10 ^ 10 := by
  norm_num [varianceOf, dot, centeredOf, sigPeriod10]

/-- The estimator returns exactly 180 BPM (from the integer lag 10) on the
period-10 window. -/
theorem estimate_sigPeriod10 :
    estimateHeartRateAutocorrelation sigPeriod10 (30:ℚ) = 180 := by
  unfold estimateHeartRateAutocorrelation chosenLag halfLagOf
  rw [searchBest_sigPeriod10, if_neg variance_sigPeriod10, minLag30]
  norm_num

/-- Parabolic refinement of the correlation peak at lag 10 (index 2 of the
scanned correlations) yields the fractional index 2 + 9/400. -/
theorem refine_sigPeriod10 :
    refinePeak ((lagRange (30:ℚ)).map (corrAt sigPeriod10)) 2 = 2 + 9/400 := by
  norm_num [refinePeak, lagRange30, corrAt, dot, centeredOf, varianceOf,
    sigPeriod10, List.range', List.getD]
  rw [abs_of_nonneg] <;> norm_num

/-- C1: on the period-10 window the estimator returns 180 BPM computed from
the unrefined integer lag 10, although that lag is interior to the scanned
range and parabolic interpolation of the surrounding correlations gives the
fractional lag 8 + (2 + 9/400) whose BPM differs from the returned value:
the sub-sample refinement step is never executed. -/
theorem refinement_not_applied :
    estimateHeartRateAutocorrelation sigPeriod10 (30:ℚ) = 180 ∧
    (searchBest sigPeriod10 (30:ℚ)).2 = 10 ∧
    minLagOf (30:ℚ) < (searchBest sigPeriod10 (30:ℚ)).2 ∧
    (searchBest sigPeriod10 (30:ℚ)).2 < maxLagOf (30:ℚ) ∧
    refinePeak ((lagRange (30:ℚ)).map (corrAt sigPeriod10))
        ((searchBest sigPeriod10 (30:ℚ)).2 - minLagOf (30:ℚ)) = 2 + 9/400 ∧
    60 / (((minLagOf (30:ℚ) : ℚ) +
        refinePeak ((lagRange (30:ℚ)).map (corrAt sigPeriod10))
          ((searchBest sigPeriod10 (30:ℚ)).2 - minLagOf (30:ℚ))) / 30) ≠
      estimateHeartRateAutocorrelation sigPeriod10 (30:ℚ) := by
  have hidx : (searchBest sigPeriod10 (30:ℚ)).2 - minLagOf (30:ℚ) = 2 := by
    rw [searchBest_sigPeriod10, minLag30]
    rfl
  refine ⟨estimate_sigPeriod10, ?_, ?_, ?_, ?_, ?_⟩
  · rw [searchBest_sigPeriod10]
  · rw [searchBest_sigPeriod10, minLag30]; norm_num
  · rw [searchBest_sigPeriod10, maxLag30]; norm_num
  · rw [hidx]; exact refine_sigPeriod10
  · rw [hidx, refine_sigPeriod10, estimate_sigPeriod10, minLag30]
    norm_num

/-- Looking up inside the bounds of a list lands on one of its members. -/
theorem getD_mem_of_lt {α : Type} (l : List α) (n : ℕ) (d : α)
    (h : n < l.length) : l.getD n d ∈ l := by
  rw [List.getD_eq_getElem?_getD, List.getElem?_eq_getElem h]
  exact List.getElem_mem h

/-- For an odd-length nonempty list, the median is one of its elements. -/
theorem median_mem_of_odd {α : Type} [LinearOrderedField α] (l : List α)
    (hne : l ≠ []) (hodd : l.length % 2 = 1) : median l ∈ l := by
  have hlen : (l.insertionSort (· ≤ ·)).length = l.length :=
    List.length_insertionSort _ l
  unfold median
  rw [if_neg hne, hlen, if_pos hodd]
  have hmid : l.length / 2 < (l.insertionSort (· ≤ ·)).length := by
    rw [hlen]
    exact Nat.div_lt_self (List.length_pos.mpr hne) (by norm_num)
  exact (List.perm_insertionSort (· ≤ ·) l).mem_iff.mp
    (getD_mem_of_lt _ _ _ hmid)

/-- The median of a nonempty list lies between any lower bound and any
upper bound of its elements. -/
theorem median_bounds {α : Type} [LinearOrderedField α] (l : List α)
    (hne : l ≠ []) (lo hi : α) (hlo : ∀ x ∈ l, lo ≤ x)
    (hhi : ∀ x ∈ l, x ≤ hi) : lo ≤ median l ∧ median l ≤ hi := by
  have hperm := List.perm_insertionSort (· ≤ ·) l
  have hlen : (l.insertionSort (· ≤ ·)).length = l.length :=
    List.length_insertionSort _ l
  have hpos : 0 < l.length := List.length_pos.mpr hne
  have hmid : l.length / 2 < (l.insertionSort (· ≤ ·)).length := by
    rw [hlen]; exact Nat.div_lt_self hpos (by norm_num)
  have hmid' : l.length / 2 - 1 < (l.insertionSort (· ≤ ·)).length :=
    lt_of_le_of_lt (Nat.sub_le _ _) hmid
  have hm1 := hperm.mem_iff.mp (getD_mem_of_lt (l.insertionSort (· ≤ ·)) (l.length / 2) 0 hmid)
  have hm2 := hperm.mem_iff.mp
    (getD_mem_of_lt (l.insertionSort (· ≤ ·)) (l.length / 2 - 1) 0 hmid')
  unfold median
  rw [if_neg hne, hlen]
  by_cases hpar : l.length % 2 = 1
  · rw [if_pos hpar]
    exact ⟨hlo _ hm1, hhi _ hm1⟩
  · rw [if_neg hpar]
    constructor
    · have := hlo _ hm1; have := hlo _ hm2; linarith
    · have := hhi _ hm1; have := hhi _ hm2; linarith

/-- A seed is bounded by a max-fold over it. -/
theorem le_foldl_max {α : Type} [LinearOrderedField α] (t : List α) (b : α) :
    b ≤ t.foldl max b := by
  induction t generalizing b with
  | nil => exact le_refl b
  | cons a t ih => exact le_trans (le_max_left b a) (ih (max b a))

/-- Every member of a list is bounded by a max-fold over it. -/
theorem mem_le_foldl_max {α : Type} [LinearOrderedField α] (t : List α)
    (b x : α) (hx : x ∈ t) : x ≤ t.foldl max b := by
  induction t generalizing b with
  | nil => cases hx
  | cons a t ih =>
    rcases List.mem_cons.mp hx with rfl | hmem
    · exact le_trans (le_max_right b x) (le_foldl_max t (max b x))
    · exact ih (max b a) hmem

/-- Every member of a nonempty list is at most `maxOf` of the list. -/
theorem le_maxOf {α : Type} [LinearOrderedField α] (l : List α) (x : α)
    (hx : x ∈ l) : x ≤ maxOf l := by
  cases l with
  | nil => cases hx
  | cons a t =>
    rcases List.mem_cons.mp hx with rfl | hmem
    · exact le_foldl_max t x
    · exact mem_le_foldl_max t a x hmem

/-- A min-fold over a list is bounded by its seed. -/
theorem foldl_min_le {α : Type} [LinearOrderedField α] (t : List α) (b : α) :
    t.foldl min b ≤ b := by
  induction t generalizing b with
  | nil => exact le_refl b
  | cons a t ih => exact le_trans (ih (min b a)) (min_le_left b a)

/-- A min-fold over a list is bounded by each of its members. -/
theorem foldl_min_le_mem {α : Type} [LinearOrderedField α] (t : List α)
    (b x : α) (hx : x ∈ t) : t.foldl min b ≤ x := by
  induction t generalizing b with
  | nil => cases hx
  | cons a t ih =>
    rcases List.mem_cons.mp hx with rfl | hmem
    · exact le_trans (foldl_min_le t (min b x)) (min_le_right b x)
    · exact ih (min b a) hmem

/-- `minOf` of a nonempty list is at most each of its members. -/
theorem minOf_le {α : Type} [LinearOrderedField α] (l : List α) (x : α)
    (hx : x ∈ l) : minOf l ≤ x := by
  cases l with
  | nil => cases hx
  | cons a t =>
    rcases List.mem_cons.mp hx with rfl | hmem
    · exact foldl_min_le t x
    · exact foldl_min_le_mem t a x hmem

/-- Members of the weighted expansion are members of the original list. -/
theorem mem_of_mem_weightedExpansion {α : Type} {vs : List α} {x : α}
    (hx : x ∈ weightedExpansion vs) : x ∈ vs := by
  unfold weightedExpansion at hx
  rw [List.mem_flatMap] at hx
  obtain ⟨p, hp, hxp⟩ := hx
  rw [List.eq_of_mem_replicate hxp]
  have : p.2 ∈ vs.enum.map Prod.snd := List.mem_map_of_mem Prod.snd hp
  rwa [List.enum_map_snd] at this

/-- Twice the length of the weighted expansion is `n * (n + 1)`. -/
theorem length_weightedExpansion_mul_two {α : Type} (vs : List α) :
    (weightedExpansion vs).length * 2 = vs.length * (vs.length + 1) := by
  have haux : ∀ n : ℕ, ((List.range n).map (· + 1)).sum * 2 = n * (n + 1) := by
    intro n
    induction n with
    | zero => rfl
    | succ k ih =>
      rw [List.range_succ, List.map_append, List.sum_append]
      simp only [List.map_cons, List.map_nil, List.sum_cons, List.sum_nil,
        Nat.add_zero]
      zify at ih ⊢
      linear_combination ih
  have hmap : (vs.enum.map (List.length ∘ fun p => List.replicate (p.1 + 1) p.2)) =
      (List.range vs.length).map (· + 1) := by
    calc vs.enum.map (List.length ∘ fun p => List.replicate (p.1 + 1) p.2)
        = vs.enum.map (fun p => p.1 + 1) := by
          simp [Function.comp_def]
      _ = (vs.enum.map Prod.fst).map (· + 1) := by
          rw [List.map_map]; simp [Function.comp_def]
      _ = (List.range vs.length).map (· + 1) := by rw [List.enum_map_fst]
  unfold weightedExpansion
  rw [List.length_flatMap, hmap, haux]

/-- The weighted expansion of a nonempty list is nonempty. -/
theorem weightedExpansion_ne_nil {α : Type} {vs : List α} (hne : vs ≠ []) :
    weightedExpansion vs ≠ [] := by
  have h2 := length_weightedExpansion_mul_two vs
  have hpos : 0 < vs.length := List.length_pos.mpr hne
  have : 0 < (weightedExpansion vs).length := by nlinarith
  exact List.ne_nil_of_length_pos this

/-- C10: for a nonempty history the weighted median lies between the
minimum and the maximum of the history; the expansion has `n(n+1)/2`
entries, and when that count is odd the weighted median is itself one of
the history's entries. -/
theorem weightedMedian_in_range (vs : List ℚ) (hne : vs ≠ []) :
    minOf vs ≤ weightedMedian vs ∧ weightedMedian vs ≤ maxOf vs ∧
    (weightedExpansion vs).length = vs.length * (vs.length + 1) / 2 ∧
    ((weightedExpansion vs).length % 2 = 1 → weightedMedian vs ∈ vs) := by
  have hEne : weightedExpansion vs ≠ [] := weightedExpansion_ne_nil hne
  have hwm : weightedMedian vs = median (weightedExpansion vs) := by
    rw [weightedMedian, if_neg hne]
  have hbounds := median_bounds (weightedExpansion vs) hEne (minOf vs) (maxOf vs)
    (fun x hx => minOf_le vs x (mem_of_mem_weightedExpansion hx))
    (fun x hx => le_maxOf vs x (mem_of_mem_weightedExpansion hx))
  refine ⟨hwm ▸ hbounds.1, hwm ▸ hbounds.2, ?_, ?_⟩
  · have := length_weightedExpansion_mul_two vs
    omega
  · intro hodd
    rw [hwm]
    exact mem_of_mem_weightedExpansion
      (median_mem_of_odd (weightedExpansion vs) hEne hodd)

/-- Witness for `weightedMedian_in_range` at the concrete history `[1, 2]`. -/
theorem weightedMedian_in_range_witness :
    ([1, 2] : List ℚ) ≠ [] ∧
    (minOf ([1, 2] : List ℚ) ≤ weightedMedian [1, 2] ∧
     weightedMedian ([1, 2] : List ℚ) ≤ maxOf [1, 2] ∧
     (weightedExpansion ([1, 2] : List ℚ)).length = 2 * (2 + 1) / 2 ∧
     ((weightedExpansion ([1, 2] : List ℚ)).length % 2 = 1 →
       weightedMedian ([1, 2] : List ℚ) ∈ [1, 2])) :=
  ⟨by simp, weightedMedian_in_range [1, 2] (by simp)⟩

/-- C7: the result smoother equals the position-weighted median — the
ordinary median (average of the two middle elements when even) of the
multiset in which the i-th of n entries appears i+1 times; the empty
history yields 0; and the literal history `[70,70,70,70,150]` yields
exactly 70. -/
theorem weightedMedian_matches_spec :
    (∀ values : List ℚ, values ≠ [] →
      weightedMedian values = median (weightedExpansion values)) ∧
    weightedMedian ([] : List ℚ) = 0 ∧
    weightedMedian ([70, 70, 70, 70, 150] : List ℚ) = 70 := by
  refine ⟨fun values h => by rw [weightedMedian, if_neg h], by rfl, by decide⟩

/-- Witness for `weightedMedian_matches_spec` at the history `[1, 2]`. -/
theorem weightedMedian_matches_spec_witness :
    ([1, 2] : List ℚ) ≠ [] ∧
    weightedMedian ([1, 2] : List ℚ) = median (weightedExpansion [1, 2]) :=
  ⟨by simp, weightedMedian_matches_spec.1 [1, 2] (by simp)⟩

/-- C4: `assessSignalQuality` returns 0 on windows of fewer than 10 samples
and, on windows of at least 10 samples, is a binary score equal to 1
exactly when at least one of the three heuristics passes (AC/DC ratio
strictly between 0.001 and 1, absolute skewness above 0.2, or peak-to-peak
span above 1). -/
theorem assessSignalQuality_pass_iff (data : List ℝ) :
    (data.length < 10 → assessSignalQuality data = 0) ∧
    (10 ≤ data.length →
      (assessSignalQuality data = 1 ∨ assessSignalQuality data = 0) ∧
      (assessSignalQuality data = 1 ↔
        (0.001 < snrOf data ∧ snrOf data < 1) ∨ 0.2 < |skewnessOf data| ∨
          1 < peakToPeakOf data)) := by
  constructor
  · intro hlen
    rw [assessSignalQuality, if_pos hlen]
  · intro hlen
    rw [assessSignalQuality, if_neg (Nat.not_lt.mpr hlen)]
    by_cases h1 : 0.001 < snrOf data ∧ snrOf data < 1 <;>
      by_cases h2 : 0.2 < |skewnessOf data| <;>
        by_cases h3 : 1 < peakToPeakOf data <;>
          simp only [h1, h2, h3, if_true, if_false, iff_true, iff_false,
            not_true, not_false_iff] <;>
          norm_num [h1, h2, h3]

/-- Witness for `assessSignalQuality_pass_iff`: a 10-sample window with
peak-to-peak span 2 passes the quality gate with score 1. -/
theorem assessSignalQuality_pass_iff_witness :
    10 ≤ ([0, 0, 0, 0, 0, 0, 0, 0, 0, 2] : List ℝ).length ∧
    assessSignalQuality ([0, 0, 0, 0, 0, 0, 0, 0, 0, 2] : List ℝ) = 1 := by
  have hlen : 10 ≤ ([0, 0, 0, 0, 0, 0, 0, 0, 0, 2] : List ℝ).length := by simp
  have hpp : 1 < peakToPeakOf ([0, 0, 0, 0, 0, 0, 0, 0, 0, 2] : List ℝ) := by
    have hmax : (2:ℝ) ≤ maxOf ([0, 0, 0, 0, 0, 0, 0, 0, 0, 2] : List ℝ) :=
      le_maxOf _ 2 (by simp)
    have hmin : minOf ([0, 0, 0, 0, 0, 0, 0, 0, 0, 2] : List ℝ) ≤ 0 :=
      minOf_le _ 0 (by simp)
    rw [peakToPeakOf]; linarith
  exact ⟨hlen, ((assessSignalQuality_pass_iff _).2 hlen).2.mpr
    (Or.inr (Or.inr hpp))⟩

/-- C8 (refutation of totality): `calculateSkewness` produces `NaN` (0/0)
on the constant window `[5, 5, 5]`, and more generally on every constant
window of length at least 3 — the division-by-zero guard the specification
requires is missing there. -/
theorem calculateSkewness_nan_on_constant :
    calculateSkewness [5, 5, 5] = none ∧
    ∀ (c : ℝ) (k : ℕ), calculateSkewness (List.replicate (k + 3) c) = none := by
  have hgen : ∀ (c : ℝ) (k : ℕ),
      calculateSkewness (List.replicate (k + 3) c) = none := by
    intro c k
    have hlen : (List.replicate (k + 3) c).length = k + 3 :=
      List.length_replicate _ _
    have hne : ((k + 3 : ℕ) : ℝ) ≠ 0 := by positivity
    have hmean : meanOf (List.replicate (k + 3) c) = c := by
      rw [meanOf, List.sum_replicate, hlen, nsmul_eq_mul]
      field_simp
    have hm2 : m2Of (List.replicate (k + 3) c) = 0 := by
      rw [m2Of, List.map_replicate, hmean]
      simp
    have hstd : stdDevOf (List.replicate (k + 3) c) = 0 := by
      rw [stdDevOf, hm2]
      simp
    rw [calculateSkewness, if_neg (by omega : ¬(List.replicate (k + 3) c).length < 3),
      if_pos hstd]
  exact ⟨by simpa using hgen 5 0, hgen⟩

/-- A monic real quadratic `z² + a1·z + a2` with nonnegative constant term,
nonnegative discriminant, nonpositive middle coefficient, and positive
values at 1 and 2 has two real roots inside `[0, 1)`. -/
theorem roots_of_quadratic (a1 a2 : ℝ) (ha2 : 0 ≤ a2)
    (hd : 0 ≤ a1 ^ 2 - 4 * a2) (ha1 : a1 ≤ 0) (hat1 : 0 < 1 + a1 + a2)
    (hat2 : 0 < 2 + a1) :
    ∃ r1 r2 : ℝ, 0 ≤ r2 ∧ r2 ≤ r1 ∧ r1 < 1 ∧ a1 = -(r1 + r2) ∧ a2 = r1 * r2 := by
  have hs : Real.sqrt (a1 ^ 2 - 4 * a2) ^ 2 = a1 ^ 2 - 4 * a2 := Real.sq_sqrt hd
  have hsn : 0 ≤ Real.sqrt (a1 ^ 2 - 4 * a2) := Real.sqrt_nonneg _
  refine ⟨(-a1 + Real.sqrt (a1 ^ 2 - 4 * a2)) / 2,
    (-a1 - Real.sqrt (a1 ^ 2 - 4 * a2)) / 2, ?_, ?_, ?_, by ring, ?_⟩
  · have h1 : a1 ^ 2 - 4 * a2 ≤ a1 ^ 2 := by linarith
    have h2 : Real.sqrt (a1 ^ 2 - 4 * a2) ≤ Real.sqrt (a1 ^ 2) :=
      Real.sqrt_le_sqrt h1
    rw [Real.sqrt_sq_eq_abs, abs_of_nonpos ha1] at h2
    linarith
  · linarith
  · have h3 : a1 ^ 2 - 4 * a2 < (2 + a1) ^ 2 := by nlinarith
    have h4 : Real.sqrt (a1 ^ 2 - 4 * a2) < 2 + a1 :=
      (Real.sqrt_lt' hat2).mpr h3
    linarith
  · have h5 : (-a1 + Real.sqrt (a1 ^ 2 - 4 * a2)) / 2 *
        ((-a1 - Real.sqrt (a1 ^ 2 - 4 * a2)) / 2) =
        (a1 ^ 2 - Real.sqrt (a1 ^ 2 - 4 * a2) ^ 2) / 4 := by ring
    rw [h5, hs]
    ring

/-- BIBO stability of the difference equation when the denominator's roots
`r1, r2` lie in `[0, 1)`: every output of the filter on a stream bounded by
`M` stays within the explicit bound `b0·2M / ((1-r2)(1-r1))`. -/
theorem bw_output_bounded_of_roots (c : BWCoeffs) (hb1 : c.b1 = 0)
    (hb2 : c.b2 = -c.b0) (hb0 : 0 ≤ c.b0) (r1 r2 : ℝ) (hr2 : 0 ≤ r2)
    (hr21 : r2 ≤ r1) (hr1 : r1 < 1) (ha1 : c.a1 = -(r1 + r2))
    (ha2 : c.a2 = r1 * r2) (M : ℝ) (hM : 0 ≤ M) (x : ℕ → ℝ)
    (hx : ∀ n, |x n| ≤ M) :
    ∀ n, |(bwRun c x n).y0| ≤ c.b0 * (2 * M) / (1 - r2) / (1 - r1) := by
  have h1r2 : 0 < 1 - r2 := by linarith
  have h1r1 : 0 < 1 - r1 := by linarith
  have hr1n : 0 ≤ r1 := le_trans hr2 hr21
  have hUn : 0 ≤ c.b0 * (2 * M) := by positivity
  have hZn : 0 ≤ c.b0 * (2 * M) / (1 - r2) := div_nonneg hUn h1r2.le
  have hBn : 0 ≤ c.b0 * (2 * M) / (1 - r2) / (1 - r1) := div_nonneg hZn h1r1.le
  have hZU : c.b0 * (2 * M) / (1 - r2) * (1 - r2) = c.b0 * (2 * M) :=
    div_mul_cancel₀ _ h1r2.ne'
  have hBZ : c.b0 * (2 * M) / (1 - r2) / (1 - r1) * (1 - r1) =
      c.b0 * (2 * M) / (1 - r2) := div_mul_cancel₀ _ h1r1.ne'
  have hxs : ∀ n, |(bwRun c x n).x0| ≤ M ∧ |(bwRun c x n).x1| ≤ M := by
    intro n
    induction n with
    | zero => constructor <;> simpa [bwRun, bwReset] using hM
    | succ k ih =>
      constructor
      · simpa [bwRun, bwStep] using hx k
      · simpa [bwRun, bwStep] using ih.1
  have hz : ∀ n, |(bwRun c x n).y0 - r1 * (bwRun c x n).y1| ≤
      c.b0 * (2 * M) / (1 - r2) := by
    intro n
    induction n with
    | zero => simpa [bwRun, bwReset] using hZn
    | succ k ih =>
      have halg : (bwRun c x (k + 1)).y0 - r1 * (bwRun c x (k + 1)).y1 =
          c.b0 * (x k - (bwRun c x k).x1) +
            r2 * ((bwRun c x k).y0 - r1 * (bwRun c x k).y1) := by
        simp only [bwRun, bwStep, hb1, hb2, ha1, ha2]
        ring
      rw [halg]
      have hd1 : |c.b0 * (x k - (bwRun c x k).x1)| ≤ c.b0 * (2 * M) := by
        rw [abs_mul, abs_of_nonneg hb0]
        have hsub : |x k - (bwRun c x k).x1| ≤ 2 * M := by
          calc |x k - (bwRun c x k).x1| ≤ |x k| + |(bwRun c x k).x1| :=
                abs_sub _ _
            _ ≤ 2 * M := by linarith [hx k, (hxs k).2]
        exact mul_le_mul_of_nonneg_left hsub hb0
      have hd2 : |r2 * ((bwRun c x k).y0 - r1 * (bwRun c x k).y1)| ≤
          r2 * (c.b0 * (2 * M) / (1 - r2)) := by
        rw [abs_mul, abs_of_nonneg hr2]
        exact mul_le_mul_of_nonneg_left ih hr2
      calc |c.b0 * (x k - (bwRun c x k).x1) +
            r2 * ((bwRun c x k).y0 - r1 * (bwRun c x k).y1)|
          ≤ |c.b0 * (x k - (bwRun c x k).x1)| +
            |r2 * ((bwRun c x k).y0 - r1 * (bwRun c x k).y1)| := abs_add _ _
        _ ≤ c.b0 * (2 * M) + r2 * (c.b0 * (2 * M) / (1 - r2)) := by
            linarith
        _ = c.b0 * (2 * M) / (1 - r2) := by nlinarith [hZU]
  intro n
  induction n with
  | zero => simpa [bwRun, bwReset] using hBn
  | succ k ih =>
    have hy1 : (bwRun c x (k + 1)).y1 = (bwRun c x k).y0 := rfl
    have hsplit : (bwRun c x (k + 1)).y0 = r1 * (bwRun c x k).y0 +
        ((bwRun c x (k + 1)).y0 - r1 * (bwRun c x (k + 1)).y1) := by
      rw [hy1]; ring
    rw [hsplit]
    calc |r1 * (bwRun c x k).y0 +
          ((bwRun c x (k + 1)).y0 - r1 * (bwRun c x (k + 1)).y1)|
        ≤ |r1 * (bwRun c x k).y0| +
          |(bwRun c x (k + 1)).y0 - r1 * (bwRun c x (k + 1)).y1| := abs_add _ _
      _ ≤ r1 * (c.b0 * (2 * M) / (1 - r2) / (1 - r1)) +
          c.b0 * (2 * M) / (1 - r2) := by
          have := hz (k + 1)
          have h6 : |r1 * (bwRun c x k).y0| ≤
              r1 * (c.b0 * (2 * M) / (1 - r2) / (1 - r1)) := by
            rw [abs_mul, abs_of_nonneg hr1n]
            exact mul_le_mul_of_nonneg_left ih hr1n
          linarith
      _ = c.b0 * (2 * M) / (1 - r2) / (1 - r1) := by nlinarith [hBZ]

/-- For prewarped band edges `0 < wl < wh < 1` whose width dominates the
geometric mean (`4·wl·wh ≤ (wh - wl)²`), the denominator of `bpfCoeffs` has
two real roots in `[0, 1)`. -/
theorem bpfCoeffs_stable (wl wh : ℝ) (hwl : 0 < wl) (hwlh : wl < wh)
    (hwh1 : wh < 1) (hdiscr : 4 * (wl * wh) ≤ (wh - wl) ^ 2) :
    ∃ r1 r2 : ℝ, 0 ≤ r2 ∧ r2 ≤ r1 ∧ r1 < 1 ∧
      (bpfCoeffs wl wh).a1 = -(r1 + r2) ∧ (bpfCoeffs wl wh).a2 = r1 * r2 := by
  have hwh0 : 0 < wh := lt_trans hwl hwlh
  have hw0 : Real.sqrt (wl * wh) * Real.sqrt (wl * wh) = wl * wh :=
    Real.mul_self_sqrt (by positivity)
  have hbw : 0 < wh - wl := sub_pos.mpr hwlh
  have hprod : 0 < wl * wh := mul_pos hwl hwh0
  have hApos : 0 < 1 + (wh - wl) + wl * wh := by linarith
  have hprod1 : wl * wh < 1 := by nlinarith
  have ha1 : (bpfCoeffs wl wh).a1 =
      2 * (wl * wh - 1) * (1 / (1 + (wh - wl) + wl * wh)) := by
    simp only [bpfCoeffs]
    rw [hw0]
  have ha2 : (bpfCoeffs wl wh).a2 =
      (1 - (wh - wl) + wl * wh) * (1 / (1 + (wh - wl) + wl * wh)) := by
    simp only [bpfCoeffs]
    rw [hw0]
  obtain ⟨r1, r2, h1, h2, h3, h4, h5⟩ :=
    roots_of_quadratic ((bpfCoeffs wl wh).a1) ((bpfCoeffs wl wh).a2)
      (by rw [ha2]; have : 0 ≤ 1 - (wh - wl) + wl * wh := by linarith
          positivity)
      (by rw [ha1, ha2]
          have key : (2 * (wl * wh - 1) * (1 / (1 + (wh - wl) + wl * wh))) ^ 2 -
              4 * ((1 - (wh - wl) + wl * wh) * (1 / (1 + (wh - wl) + wl * wh))) =
              (4 * ((wh - wl) ^ 2 - 4 * (wl * wh))) / (1 + (wh - wl) + wl * wh) ^ 2 := by
            field_simp
            ring
          rw [key]
          apply div_nonneg (by linarith) (by positivity))
      (by rw [ha1]
          have h6 : wl * wh - 1 ≤ 0 := by linarith
          have h7 : 0 < 1 / (1 + (wh - wl) + wl * wh) := by positivity
          nlinarith)
      (by rw [ha1, ha2]
          have key : 1 + 2 * (wl * wh - 1) * (1 / (1 + (wh - wl) + wl * wh)) +
              (1 - (wh - wl) + wl * wh) * (1 / (1 + (wh - wl) + wl * wh)) =
              4 * (wl * wh) / (1 + (wh - wl) + wl * wh) := by
            field_simp
            ring
          rw [key]
          positivity)
      (by rw [ha1]
          have key : 2 + 2 * (wl * wh - 1) * (1 / (1 + (wh - wl) + wl * wh)) =
              (2 * (wh - wl) + 4 * (wl * wh)) / (1 + (wh - wl) + wl * wh) := by
            field_simp
            ring
          rw [key]
          positivity)
  exact ⟨r1, r2, h1, h2, h3, h4, h5⟩

/-- The numerator of `bpfCoeffs` has `b1 = 0`, `b2 = -b0` and `0 ≤ b0` for
`wl ≤ wh`. -/
theorem bpfCoeffs_numerator (wl wh : ℝ) (hwl : 0 < wl) (hwlh : wl < wh) :
    (bpfCoeffs wl wh).b1 = 0 ∧ (bpfCoeffs wl wh).b2 = -(bpfCoeffs wl wh).b0 ∧
      0 ≤ (bpfCoeffs wl wh).b0 := by
  have hwh0 : 0 < wh := lt_trans hwl hwlh
  have hw0 : Real.sqrt (wl * wh) * Real.sqrt (wl * wh) = wl * wh :=
    Real.mul_self_sqrt (by positivity)
  refine ⟨rfl, rfl, ?_⟩
  show 0 ≤ (wh - wl) * (1 / (1 + (wh - wl) + Real.sqrt (wl * wh) * Real.sqrt (wl * wh)))
  rw [hw0]
  have hbw : 0 < wh - wl := sub_pos.mpr hwlh
  have hprod : 0 < wl * wh := mul_pos hwl hwh0
  have hApos : 0 < 1 + (wh - wl) + wl * wh := by linarith
  positivity

/-- The low prewarped edge `tan(π·0.5/30)` is positive. -/
theorem wLow_pos : 0 < Real.tan (Real.pi * 0.5 / 30) := by
  have e1 : Real.pi * 0.5 / 30 = Real.pi / 60 := by ring
  rw [e1]
  exact Real.tan_pos_of_pos_of_lt_pi_div_two (by positivity)
    (by linarith [Real.pi_pos])

/-- The low prewarped edge `tan(π·0.5/30)` is at most 3/40. -/
theorem wLow_le : Real.tan (Real.pi * 0.5 / 30) ≤ 3 / 40 := by
  have e1 : Real.pi * 0.5 / 30 = Real.pi / 60 := by ring
  rw [e1, Real.tan_eq_sin_div_cos]
  have hpi : Real.pi < 3.15 := Real.pi_lt_d2
  have hsin_le : Real.sin (Real.pi / 60) ≤ 21 / 400 := by
    have h1 : Real.sin (Real.pi / 60) < Real.pi / 60 :=
      Real.sin_lt (by positivity)
    linarith
  have hsin_nonneg : 0 ≤ Real.sin (Real.pi / 60) :=
    Real.sin_nonneg_of_nonneg_of_le_pi (by positivity) (by linarith [Real.pi_pos])
  have hcos_ge : 141 / 200 ≤ Real.cos (Real.pi / 60) := by
    have h2 : Real.cos (Real.pi / 4) ≤ Real.cos (Real.pi / 60) :=
      Real.cos_le_cos_of_nonneg_of_le_pi (by positivity)
        (by linarith [Real.pi_pos]) (by linarith [Real.pi_pos])
    rw [Real.cos_pi_div_four] at h2
    have h3 : (1.41 : ℝ) < Real.sqrt 2 :=
      (Real.lt_sqrt (by norm_num)).mpr (by norm_num)
    rw [show (141 : ℝ) / 200 = 1.41 / 2 by norm_num]
    linarith
  calc Real.sin (Real.pi / 60) / Real.cos (Real.pi / 60)
      ≤ (21 / 400) / (141 / 200) :=
        div_le_div₀ (by norm_num) hsin_le (by norm_num) hcos_ge
    _ ≤ 3 / 40 := by norm_num

/-- The high prewarped edge `tan(π·5/30)` equals `1/√3`. -/
theorem wHigh_eq : Real.tan (Real.pi * 5 / 30) = 1 / Real.sqrt 3 := by
  have e2 : Real.pi * 5 / 30 = Real.pi / 6 := by ring
  have h3 : (0 : ℝ) < Real.sqrt 3 := Real.sqrt_pos.mpr (by norm_num)
  rw [e2, Real.tan_eq_sin_div_cos, Real.sin_pi_div_six, Real.cos_pi_div_six]
  field_simp

/-- The high prewarped edge is between 57/100 and 58/100. -/
theorem wHigh_bounds :
    57 / 100 ≤ Real.tan (Real.pi * 5 / 30) ∧
      Real.tan (Real.pi * 5 / 30) ≤ 58 / 100 := by
  rw [wHigh_eq]
  have h3 : (0 : ℝ) < Real.sqrt 3 := Real.sqrt_pos.mpr (by norm_num)
  have hlb : (1.73 : ℝ) < Real.sqrt 3 :=
    (Real.lt_sqrt (by norm_num)).mpr (by norm_num)
  have hub : Real.sqrt 3 < 1.74 :=
    (Real.sqrt_lt' (by norm_num)).mpr (by norm_num)
  constructor
  · have h4 : 1 / (1.74 : ℝ) ≤ 1 / Real.sqrt 3 :=
      one_div_le_one_div_of_le h3 hub.le
    calc (57 : ℝ) / 100 ≤ 1 / 1.74 := by norm_num
      _ ≤ 1 / Real.sqrt 3 := h4
  · have h5 : 1 / Real.sqrt 3 ≤ 1 / (1.73 : ℝ) :=
      one_div_le_one_div_of_le (by norm_num) hlb.le
    calc 1 / Real.sqrt 3 ≤ 1 / (1.73 : ℝ) := h5
      _ ≤ 58 / 100 := by norm_num

/-- C9: with the monitor's construction (`fs = 30`, passband 0.5–5 Hz),
every input stream with samples in `[0, 255]` produces a bounded output
sequence: there is a bound `B` with `|y[n]| ≤ B` at every tick. -/
theorem butterworth_output_bounded (x : ℕ → ℝ)
    (hx : ∀ n, 0 ≤ x n ∧ x n ≤ 255) :
    ∃ B : ℝ, ∀ n, |(bwRun (butterworthCoeffs 30 0.5 5) x n).y0| ≤ B := by
  have hwl : 0 < Real.tan (Real.pi * 0.5 / 30) := wLow_pos
  have hwlle : Real.tan (Real.pi * 0.5 / 30) ≤ 3 / 40 := wLow_le
  obtain ⟨hwhlb, hwhub⟩ := wHigh_bounds
  have hwlh : Real.tan (Real.pi * 0.5 / 30) < Real.tan (Real.pi * 5 / 30) := by
    linarith
  have hwh1 : Real.tan (Real.pi * 5 / 30) < 1 := by linarith
  have hdiscr : 4 * (Real.tan (Real.pi * 0.5 / 30) * Real.tan (Real.pi * 5 / 30)) ≤
      (Real.tan (Real.pi * 5 / 30) - Real.tan (Real.pi * 0.5 / 30)) ^ 2 := by
    nlinarith [sq_nonneg (Real.tan (Real.pi * 5 / 30) -
      Real.tan (Real.pi * 0.5 / 30) - 99 / 200)]
  obtain ⟨r1, r2, hr2, hr21, hr1, ha1, ha2⟩ :=
    bpfCoeffs_stable _ _ hwl hwlh hwh1 hdiscr
  obtain ⟨hb1, hb2, hb0⟩ := bpfCoeffs_numerator _ _ hwl hwlh
  have hco : butterworthCoeffs 30 0.5 5 =
      bpfCoeffs (Real.tan (Real.pi * 0.5 / 30)) (Real.tan (Real.pi * 5 / 30)) := rfl
  refine ⟨(bpfCoeffs (Real.tan (Real.pi * 0.5 / 30))
      (Real.tan (Real.pi * 5 / 30))).b0 * (2 * 255) / (1 - r2) / (1 - r1), ?_⟩
  rw [hco]
  exact bw_output_bounded_of_roots _ hb1 hb2 hb0 r1 r2 hr2 hr21 hr1 ha1 ha2
    255 (by norm_num) x
    (fun n => abs_le.mpr ⟨by linarith [(hx n).1], (hx n).2⟩)

/-- Witness for `butterworth_output_bounded` on the constant stream 100. -/
theorem butterworth_output_bounded_witness :
    (∀ _n : ℕ, 0 ≤ (100 : ℝ) ∧ (100 : ℝ) ≤ 255) ∧
    ∃ B : ℝ, ∀ n, |(bwRun (butterworthCoeffs 30 0.5 5) (fun _ => 100) n).y0| ≤ B :=
  ⟨fun _ => by norm_num,
    butterworth_output_bounded (fun _ => 100) (fun _ => by norm_num)⟩

/-- C2 (amended): a sample below the lost-contact threshold received during
Measuring immediately moves the session back to waiting with progress and
finger flag reset, leaving every other field — in particular the sample
window and the estimate history — unchanged; both are cleared only when the
next Measuring phase begins on finger re-detection. -/
theorem contact_loss_behavior :
    (∀ (st : MonitorState) (x : ℝ) (now : ℤ), st.phase = Phase.measuring →
      x < 40 → processFrameData st x now =
        { st with fingerDetected := false, phase := Phase.waiting, progress := 0 }) ∧
    (∀ (st : MonitorState) (x : ℝ) (now : ℤ), st.phase = Phase.waiting →
      80 < x → (processFrameData st x now).dataBuffer = [] ∧
        (processFrameData st x now).validReadings = []) := by
  constructor
  · intro st x now hp hx
    simp only [processFrameData, hp]
    rw [if_pos hx]
  · intro st x now hp hx
    simp only [processFrameData, hp]
    rw [if_pos hx]
    exact ⟨rfl, rfl⟩

/-- Witness for `contact_loss_behavior` at concrete states and samples. -/
theorem contact_loss_behavior_witness :
    (stMeasuring.phase = Phase.measuring ∧ (10 : ℝ) < 40 ∧
      processFrameData stMeasuring 10 0 =
        { stMeasuring with fingerDetected := false, phase := Phase.waiting, progress := 0 }) ∧
    (initialMonitorState.phase = Phase.waiting ∧ (80 : ℝ) < 100 ∧
      (processFrameData initialMonitorState 100 0).dataBuffer = [] ∧
      (processFrameData initialMonitorState 100 0).validReadings = []) :=
  ⟨⟨rfl, by norm_num, contact_loss_behavior.1 stMeasuring 10 0 rfl (by norm_num)⟩,
   ⟨rfl, by norm_num,
    contact_loss_behavior.2 initialMonitorState 100 0 rfl (by norm_num)⟩⟩

/-- C2 counterexample: start a session, detect a finger with sample 100,
buffer one filtered sample, then lose contact with sample 10.  The session
does leave Measuring immediately, but the sample window is NOT empty
immediately after the transition — clearing happens only on the next
finger detection. -/
theorem contact_loss_counterexample :
    (processFrameData (processFrameData initialMonitorState 100 0) 100 33).phase =
      Phase.measuring ∧
    (processFrameData (processFrameData (processFrameData initialMonitorState 100 0)
      100 33) 10 66).phase = Phase.waiting ∧
    (processFrameData (processFrameData (processFrameData initialMonitorState 100 0)
      100 33) 10 66).dataBuffer ≠ [] := by
  have h1 : processFrameData initialMonitorState 100 0 =
      { initialMonitorState with
        fingerDetected := true
        phase := Phase.measuring
        dataBuffer := []
        validReadings := []
        filter := bwReset
        progress := 0 } := by
    simp only [processFrameData, initialMonitorState]
    rw [if_pos (by norm_num : (80 : ℝ) < 100)]
  have h2 : processFrameData (processFrameData initialMonitorState 100 0) 100 33 =
      { initialMonitorState with
        fingerDetected := true
        phase := Phase.measuring
        dataBuffer := [(bwStep monitorCoeffs bwReset 100).y0]
        validReadings := []
        filter := bwStep monitorCoeffs bwReset 100
        progress := min ((1 : ℝ) / 180) 1 } := by
    rw [h1]
    simp only [processFrameData]
    rw [if_neg (by norm_num : ¬(100 : ℝ) < 40)]
    simp only [processMeasuring, List.length_nil]
    rw [if_neg (by norm_num)]
    simp only [processAccepted, pushWindow, List.nil_append, List.length_cons,
      List.length_nil]
    rw [if_neg (by norm_num), if_neg (by norm_num)]
    norm_num
  refine ⟨by rw [h2], ?_, ?_⟩
  · rw [h2]
    simp only [processFrameData]
    rw [if_pos (by norm_num : (10 : ℝ) < 40)]
  · rw [h2]
    simp only [processFrameData]
    rw [if_pos (by norm_num : (10 : ℝ) < 40)]
    simp

/-- The sliding-window push preserves the capacity bound and fills by one
below capacity. -/
theorem pushWindow_length (buf : List ℝ) (v : ℝ) (h : buf.length ≤ 180) :
    (pushWindow buf v).length = min (buf.length + 1) 180 := by
  unfold pushWindow
  by_cases hc : 180 < (buf ++ [v]).length
  · rw [if_pos hc]
    rw [List.length_tail, List.length_append] at *
    simp only [List.length_cons, List.length_nil] at *
    omega
  · rw [if_neg hc]
    rw [List.length_append] at *
    simp only [List.length_cons, List.length_nil] at *
    omega

/-- Folding accepted pushes over the window keeps the capacity invariant
and reaches exactly `min (initial + pushes) 180`. -/
theorem foldl_pushWindow_length (vs : List ℝ) :
    ∀ buf : List ℝ, buf.length ≤ 180 →
      (vs.foldl pushWindow buf).length = min (buf.length + vs.length) 180 := by
  induction vs with
  | nil => intro buf h; simp; omega
  | cons v vs ih =>
    intro buf h
    rw [List.foldl_cons]
    have hp := pushWindow_length buf v h
    have hle : (pushWindow buf v).length ≤ 180 := by omega
    rw [ih (pushWindow buf v) hle, hp]
    simp only [List.length_cons]
    omega

/-- The evaluation stage never changes the sample window. -/
theorem processEvaluate_dataBuffer (st : MonitorState) :
    (processEvaluate st).dataBuffer = st.dataBuffer := by
  unfold processEvaluate processAcceptReading
  split_ifs <;> rfl

/-- C6: the sample window never exceeds the 180-sample capacity — for the
push operation itself, for any sequence of 180 accepted pushes starting
from an empty window (reaching exactly 180), and for every step of the
session machine. -/
theorem window_capacity_invariant :
    (∀ (buf : List ℝ) (v : ℝ), buf.length ≤ 180 → (pushWindow buf v).length ≤ 180) ∧
    (∀ vs : List ℝ, vs.length = 180 → (vs.foldl pushWindow []).length = 180) ∧
    (∀ (st : MonitorState) (x : ℝ) (now : ℤ), st.dataBuffer.length ≤ 180 →
      (processFrameData st x now).dataBuffer.length ≤ 180) := by
  refine ⟨?_, ?_, ?_⟩
  · intro buf v h
    rw [pushWindow_length buf v h]
    omega
  · intro vs hvs
    rw [foldl_pushWindow_length vs [] (by simp)]
    simp [hvs]
  · intro st x now h
    obtain ⟨ph, fd, buf, vr, pr, bpm, lpt, fl⟩ := st
    simp only at h
    cases ph
    case waiting =>
      simp only [processFrameData]
      split_ifs
      · simp
      · simp only []
        exact h
    case measuring =>
      simp only [processFrameData]
      split_ifs with h1
      · simp only []
        exact h
      · unfold processMeasuring
        split_ifs with h2
        · show (buf.take (buf.length - 5)).length ≤ 180
          rw [List.length_take]
          omega
        · unfold processAccepted
          have hp := pushWindow_length buf (bwStep monitorCoeffs fl x).y0 h
          split_ifs with h3
          · rw [processEvaluate_dataBuffer]
            show (pushWindow buf (bwStep monitorCoeffs fl x).y0).length ≤ 180
            omega
          · show (pushWindow buf (bwStep monitorCoeffs fl x).y0).length ≤ 180
            omega

/-- Witness for `window_capacity_invariant`: a single push and a run of 180
pushes from the empty window. -/
theorem window_capacity_invariant_witness :
    (([] : List ℝ).length ≤ 180 ∧ (pushWindow [] 0).length ≤ 180) ∧
    ((List.replicate 180 (0 : ℝ)).length = 180 ∧
      ((List.replicate 180 (0 : ℝ)).foldl pushWindow []).length = 180) :=
  ⟨⟨by simp, window_capacity_invariant.1 [] 0 (by simp)⟩,
   ⟨List.length_replicate 180 0,
    window_capacity_invariant.2.1 _ (List.length_replicate 180 0)⟩⟩

end PulseDetector

